import Mathlib

/-!
Verification of the calendar-subscription slice of sargaux.com
(`src/lib/calendar.ts`): HMAC-signed guest tokens, the free-text time
parser, and the RFC 5545 ICS feed builder.

Modelling conventions:
* JavaScript strings handled by the token codec are modelled as their
  UTF-8 byte sequences (`Bytes := List Nat`, each entry < 256); the
  Node `Buffer.from(string)` / `Buffer.prototype.toString` round trip is
  the identity at this level.
* `process.env.CALENDAR_HMAC_SECRET` is modelled as an `Option Bytes`
  argument; a thrown configuration error is `none` in the result.
* The impure `dtstamp()` clock read is modelled by passing the stamp
  string as an explicit argument to `buildICS`.
-/

namespace Sargaux

abbrev Byte := Nat
abbrev Bytes := List Nat

/-- Every entry is a byte value. -/
def ValidBytes (bs : Bytes) : Prop := ∀ b ∈ bs, b < 256

instance : DecidablePred ValidBytes := fun bs => by
  unfold ValidBytes; infer_instance

/-! ### SHA-256 (model of the Node `crypto` primitive used by `createHmac`) -/

/-- Truncation to a 32-bit word. -/
def w32 (n : Nat) : Nat := n % 4294967296

/-- 32-bit right rotation. -/
def rotr (k n : Nat) : Nat := w32 ((n >>> k) ||| (n <<< (32 - k)))

def smallSigma0 (x : Nat) : Nat := (rotr 7 x) ^^^ (rotr 18 x) ^^^ (x >>> 3)
def smallSigma1 (x : Nat) : Nat := (rotr 17 x) ^^^ (rotr 19 x) ^^^ (x >>> 10)
def bigSigma0 (x : Nat) : Nat := (rotr 2 x) ^^^ (rotr 13 x) ^^^ (rotr 22 x)
def bigSigma1 (x : Nat) : Nat := (rotr 6 x) ^^^ (rotr 11 x) ^^^ (rotr 25 x)

def chFn (e f g : Nat) : Nat := (e &&& f) ^^^ ((e ^^^ 4294967295) &&& g)
def majFn (a b c : Nat) : Nat := (a &&& b) ^^^ (a &&& c) ^^^ (b &&& c)

/-- The eight-word SHA-256 working state. -/
structure Hash8 where
  a : Nat
  b : Nat
  c : Nat
  d : Nat
  e : Nat
  f : Nat
  g : Nat
  h : Nat
deriving DecidableEq

def sha256init : Hash8 :=
  ⟨1779033703, 3144134277, 1013904242, 2773480762,
   1359893119, 2600822924, 528734635, 1541459225⟩

def kConsts : List Nat :=
  [1116352408, 1899447441, 3049323471, 3921009573, 961987163,
   1508970993, 2453635748, 2870763221, 3624381080, 310598401,
   607225278, 1426881987, 1925078388, 2162078206, 2614888103,
   3248222580, 3835390401, 4022224774, 264347078, 604807628,
   770255983, 1249150122, 1555081692, 1996064986, 2554220882,
   2821834349, 2952996808, 3210313671, 3336571891, 3584528711,
   113926993, 338241895, 666307205, 773529912, 1294757372,
   1396182291, 1695183700, 1986661051, 2177026350, 2456956037,
   2730485921, 2820302411, 3259730800, 3345764771, 3516065817,
   3600352804, 4094571909, 275423344, 430227734, 506948616,
   659060556, 883997877, 958139571, 1322822218, 1537002063,
   1747873779, 1955562222, 2024104815, 2227730452, 2361852424,
   2428436474, 2756734187, 3204031479, 3329325298]

/-- Extend the sixteen block words to the 64-entry message schedule. -/
def schedule (ws : Array Nat) : Array Nat :=
  (List.range 48).foldl
    (fun arr i =>
      arr.push (w32 (smallSigma1 (arr.getD (i + 14) 0) + arr.getD (i + 9) 0 +
                     smallSigma0 (arr.getD (i + 1) 0) + arr.getD i 0)))
    ws

/-- One SHA-256 compression round. -/
def round (s : Hash8) (kw : Nat × Nat) : Hash8 :=
  let t1 := w32 (s.h + bigSigma1 s.e + chFn s.e s.f s.g + kw.1 + kw.2)
  let t2 := w32 (bigSigma0 s.a + majFn s.a s.b s.c)
  ⟨w32 (t1 + t2), s.a, s.b, s.c, w32 (s.d + t1), s.e, s.f, s.g⟩

/-- Process one 16-word block. -/
def compress (s : Hash8) (block : List Nat) : Hash8 :=
  let ws := schedule block.toArray
  let t := (kConsts.zip ws.toList).foldl round s
  ⟨w32 (s.a + t.a), w32 (s.b + t.b), w32 (s.c + t.c), w32 (s.d + t.d),
   w32 (s.e + t.e), w32 (s.f + t.f), w32 (s.g + t.g), w32 (s.h + t.h)⟩

/-- `k` bytes of `n`, big-endian. -/
def natToBytesBE (k n : Nat) : Bytes :=
  (List.range k).reverse.map (fun i => (n >>> (8 * i)) % 256)

/-- Big-endian 4-byte words from a byte stream. -/
def bytesToWords : Bytes → List Nat
  | a :: b :: c :: d :: rest => (((a * 256 + b) * 256 + c) * 256 + d) :: bytesToWords rest
  | _ => []

def wordsToBytes (ws : List Nat) : Bytes := (ws.map (natToBytesBE 4)).flatten

/-- SHA-256 digest of a byte sequence. -/
def sha256 (msg : Bytes) : Bytes :=
  let r := msg.length % 64
  let padded := msg ++ 128 :: List.replicate ((119 - r) % 64) 0 ++
                natToBytesBE 8 (8 * msg.length)
  let words := bytesToWords padded
  let final := (List.range (padded.length / 64)).foldl
    (fun s i => compress s ((words.drop (16 * i)).take 16)) sha256init
  wordsToBytes [final.a, final.b, final.c, final.d, final.e, final.f, final.g, final.h]

/-- HMAC-SHA256 (RFC 2104) with a 64-byte block size. -/
def hmacSha256 (key msg : Bytes) : Bytes :=
  let k0 := if key.length > 64 then sha256 key else key
  let kPad := k0 ++ List.replicate (64 - k0.length) 0
  sha256 ((kPad.map (fun b => b ^^^ 92)) ++ sha256 ((kPad.map (fun b => b ^^^ 54)) ++ msg))

/-- Lowercase hex digit (as a byte). -/
def hexDigit (n : Nat) : Nat := if n < 10 then 48 + n else 87 + n

/-- Lowercase hex rendering of bytes (model of `digest('hex')`). -/
def bytesToHex (bs : Bytes) : Bytes :=
  (bs.map (fun b => [hexDigit (b / 16), hexDigit (b % 16)])).flatten

/-! ### Base64 (model of Node `Buffer` base64 conversion)

Relevant ASCII codes: `'+' = 43`, `'-' = 45`, `'.' = 46`, `'/' = 47`,
`'=' = 61`, `'_' = 95`. -/

/-- The 6-bit groups of a byte stream (no padding characters). -/
def encodeVals : Bytes → List Nat
  | x :: y :: z :: rest =>
      x / 4 :: ((x % 4) * 16 + y / 16) :: ((y % 16) * 4 + z / 64) :: z % 64 ::
        encodeVals rest
  | [x, y] => [x / 4, (x % 4) * 16 + y / 16, (y % 16) * 4]
  | [x] => [x / 4, (x % 4) * 16]
  | [] => []

/-- Standard base64 alphabet character (as a byte) for a 6-bit value. -/
def b64char (v : Nat) : Nat :=
  if v < 26 then 65 + v
  else if v < 52 then 97 + (v - 26)
  else if v < 62 then 48 + (v - 52)
  else if v = 62 then 43
  else 47

/-- Standard base64 with `'='` padding, as `Buffer.toString('base64')` yields. -/
def b64encode (bs : Bytes) : Bytes :=
  (encodeVals bs).map b64char ++ List.replicate ((3 - bs.length % 3) % 3) 61

/-- 6-bit value of a base64 alphabet character; Node accepts both the
standard and the URL-safe alphabet when decoding. -/
def b64val (c : Nat) : Option Nat :=
  if 65 ≤ c ∧ c ≤ 90 then some (c - 65)
  else if 97 ≤ c ∧ c ≤ 122 then some (c - 97 + 26)
  else if 48 ≤ c ∧ c ≤ 57 then some (c - 48 + 52)
  else if c = 43 ∨ c = 45 then some 62
  else if c = 47 ∨ c = 95 then some 63
  else none

/-- Bytes from a stream of 6-bit values; bits that do not fill a whole
byte are discarded, as Node does. -/
def decodeVals : List Nat → Bytes
  | a :: b :: c :: d :: rest =>
      (a * 4 + b / 16) :: ((b % 16) * 16 + c / 4) :: ((c % 4) * 64 + d) ::
        decodeVals rest
  | [a, b, c] => [a * 4 + b / 16, (b % 16) * 16 + c / 4]
  | [a, b] => [a * 4 + b / 16]
  | _ => []

/-- Model of `Buffer.from(s, 'base64')`: decoding stops at the first `'='`,
skips characters outside the alphabet, and discards trailing bits. -/
def b64decode (cs : Bytes) : Bytes :=
  decodeVals ((cs.takeWhile (fun c => c ≠ 61)).filterMap b64val)

/-- `toBase64Url` from `src/lib/calendar.ts`: standard base64, then the
three global replacements `+` to `-`, `/` to `_`, and `=` removed. -/
def toBase64Url (bs : Bytes) : Bytes :=
  (((b64encode bs).map (fun c => if c = 43 then 45 else c)).map
      (fun c => if c = 47 then 95 else c)).filter (fun c => c ≠ 61)

/-- `fromBase64Url` from `src/lib/calendar.ts`: the reverse replacements,
re-padding to a multiple of four, then base64 decoding.  The source wraps
the decode in try/catch returning null, but `Buffer.from` does not throw
on string input, so the model always returns `some`. -/
def fromBase64Url (cs : Bytes) : Option Bytes :=
  let padded := (cs.map (fun c => if c = 45 then 43 else c)).map
    (fun c => if c = 95 then 47 else c)
  let pad := padded.length % 4
  let b64 := if pad = 0 then padded else padded ++ List.replicate (4 - pad) 61
  some (b64decode b64)

/-! ### Token generation and verification (`src/lib/calendar.ts`) -/

/-- `computeHmac`: HMAC-SHA256 of the guest id under the
`CALENDAR_HMAC_SECRET`, keeping the first 32 hex characters.  A missing
secret throws in the source; here it yields `none`. -/
def computeHmac (secret : Option Bytes) (guestId : Bytes) : Option Bytes :=
  match secret with
  | none => none
  | some s => some ((bytesToHex (hmacSha256 s guestId)).take 32)

/-- `generateToken`: `base64url(guestId) ++ "." ++ hmac[0:32]`.  `none`
models the configuration error thrown when the secret is missing. -/
def generateToken (secret : Option Bytes) (guestId : Bytes) : Option Bytes :=
  let encoded := toBase64Url guestId
  (computeHmac secret guestId).map (fun hmac => encoded ++ 46 :: hmac)

/-- The XOR-accumulating constant-time comparison loop of `verifyToken`
(run on two equal-length byte strings). -/
def ctDiff (a b : Bytes) : Nat :=
  (a.zip b).foldl (fun d p => d ||| (p.1 ^^^ p.2)) 0

/-- `verifyToken`: split at the first `'.'`, base64url-decode the first
segment, recompute the expected signature, compare in constant time.
The `some []` arm is the `if (!guestId) return null` falsy check on the
empty decoded string; the `none` arm of `computeHmac` is the caught
missing-secret error. -/
def verifyToken (secret : Option Bytes) (token : Bytes) : Option Bytes :=
  match token.findIdx? (fun c => c == 46) with
  | none => none
  | some dotIndex =>
    let encoded := token.take dotIndex
    let providedHmac := token.drop (dotIndex + 1)
    match fromBase64Url encoded with
    | none => none
    | some [] => none
    | some guestId =>
      match computeHmac secret guestId with
      | none => none
      | some expectedHmac =>
        if providedHmac.length ≠ expectedHmac.length then none
        else if ctDiff providedHmac expectedHmac = 0 then some guestId
        else none

/-! ### Time parsing (`parseTime` in `src/lib/calendar.ts`)

`parseTime` matches the two anchored regexes
`/^(\d{1,2}):(\d{2})\s*(AM|PM)$/i` and `/^(\d{1,2}):(\d{2})$/` against the
input.  The regexes are modelled by direct matchers on the character
list; `\s` is the JavaScript RegExp whitespace class. -/

structure TimeHM where
  hour : Nat
  minute : Nat
deriving DecidableEq

/-- The JavaScript RegExp `\s` character class. -/
def isJsSpace (c : Char) : Bool :=
  c == ' ' || c == '\t' || c == '\n' || c.toNat == 11 || c.toNat == 12 ||
  c == '\r' || c.toNat == 160 || c.toNat == 5760 ||
  (8192 ≤ c.toNat && c.toNat ≤ 8202) || c.toNat == 8232 ||
  c.toNat == 8233 || c.toNat == 8239 || c.toNat == 8287 ||
  c.toNat == 12288 || c.toNat == 65279

def digitVal (c : Char) : Nat := c.toNat - 48

/-- The shared leading pattern `(\d{1,2}):(\d{2})` of both regexes:
hour value, minute value, and the characters after the two minute
digits.  The hour is one digit when a colon follows immediately (a
digit is never `':'`, so the alternatives cannot overlap), two digits
when a second digit and then a colon follow. -/
def matchHM (cs : List Char) : Option (Nat × Nat × List Char) :=
  match cs with
  | c1 :: c2 :: rest2 =>
    if c1.isDigit then
      if c2 = ':' then
        match rest2 with
        | m1 :: m2 :: rest =>
          if m1.isDigit && m2.isDigit then
            some (digitVal c1, 10 * digitVal m1 + digitVal m2, rest)
          else none
        | _ => none
      else if c2.isDigit then
        match rest2 with
        | c3 :: m1 :: m2 :: rest =>
          if c3 = ':' && m1.isDigit && m2.isDigit then
            some (10 * digitVal c1 + digitVal c2, 10 * digitVal m1 + digitVal m2, rest)
          else none
        | _ => none
      else none
    else none
  | _ => none

/-- The 12-hour regex `^(\d{1,2}):(\d{2})\s*(AM|PM)$/i`: the Boolean is
true for a PM match. -/
def match12 (cs : List Char) : Option (Nat × Nat × Bool) :=
  match matchHM cs with
  | none => none
  | some (h, m, rest) =>
    match rest.dropWhile isJsSpace with
    | [a, mc] =>
      if (a == 'A' || a == 'a') && (mc == 'M' || mc == 'm') then some (h, m, false)
      else if (a == 'P' || a == 'p') && (mc == 'M' || mc == 'm') then some (h, m, true)
      else none
    | _ => none

/-- `parseTime`: try the 12-hour regex, apply the two meridiem
adjustments, otherwise try the 24-hour regex, otherwise `undefined`. -/
def parseTime (time : String) : Option TimeHM :=
  match match12 time.data with
  | some (h, m, isPM) =>
    let hour := if isPM = false ∧ h = 12 then 0
      else if isPM = true ∧ h ≠ 12 then h + 12
      else h
    some ⟨hour, m⟩
  | none =>
    match matchHM time.data with
    | some (h, m, rest) => if rest = [] then some ⟨h, m⟩ else none
    | none => none

/-! ### ICS text helpers (`src/lib/calendar.ts`) -/

/-- One global single-character replacement, as `String.replace(/c/g, rep)`
performs for a single-character pattern. -/
def replaceChar (c : Char) (rep : List Char) : List Char → List Char
  | [] => []
  | x :: xs =>
      if x = c then rep ++ replaceChar c rep xs else x :: replaceChar c rep xs

/-- `escapeICS` on characters: the four sequential global replacements
backslash, semicolon, comma, newline, in source order. -/
def escapeICSList (cs : List Char) : List Char :=
  replaceChar '\n' ['\\', 'n']
    (replaceChar ',' ['\\', ',']
      (replaceChar ';' ['\\', ';']
        (replaceChar '\\' ['\\', '\\'] cs)))

def escapeICS (s : String) : String := String.mk (escapeICSList s.data)

/-- The inverse transformation described by the spec round-trip property:
a backslash escape collapses to the escaped character, `\n` to a newline. -/
def unescapeICSList (l : List Char) : List Char :=
  match l with
  | [] => []
  | [c] => [c]
  | c1 :: c2 :: rest =>
    if c1 = '\\' then (if c2 = 'n' then '\n' else c2) :: unescapeICSList rest
    else c1 :: unescapeICSList (c2 :: rest)
termination_by l.length

def unescapeICS (s : String) : String := String.mk (unescapeICSList s.data)

/-- `formatDate`: every `'-'` removed from the date string. -/
def formatDate (dateStr : String) : String :=
  String.mk (dateStr.data.filter (fun c => c ≠ '-'))

/-! ### Feed building (`buildICS` in `src/lib/calendar.ts`) -/

/-- Model of a JavaScript number produced by `Number()` on a piece of a
date string split on `'-'`, plus the arithmetic on parsed hours: `NaN`
or a natural number.  `Number('') = 0` and all-digit strings parse as
decimal; every other piece is modelled as `NaN`.  (Pieces with signs,
decimal points, exponents, hex prefixes or surrounding whitespace would
be numeric in JavaScript; they cannot occur in the documented
`"YYYY-MM-DD"` date shape, and no theorem below evaluates the model on
such a piece.) -/
inductive JsNum where
  | nan : JsNum
  | num : Nat → JsNum
deriving DecidableEq

def digitsVal (cs : List Char) : Nat := cs.foldl (fun a c => 10 * a + digitVal c) 0

/-- `Number()` on one piece of the split, as a character list. -/
def jsNumber (cs : List Char) : JsNum :=
  if cs = [] then .num 0
  else if cs.all Char.isDigit then .num (digitsVal cs)
  else .nan

/-- JavaScript `split('-')` at the character level: every occurrence of
`'-'` separates, the empty string splits to one empty piece. -/
def jsSplitDash (cs : List Char) : List (List Char) :=
  cs.foldr
    (fun c acc =>
      if c = '-' then [] :: acc
      else
        match acc with
        | [] => [[c]]
        | g :: gs => (c :: g) :: gs)
    [[]]

/-- `String(n)` for a JavaScript number. -/
def jsNumToString : JsNum → String
  | .nan => "NaN"
  | .num n => toString n

/-- The `pad` helper of `buildICS`: `String(n).padStart(2, '0')`. -/
def jsPad (n : JsNum) : String :=
  let s := jsNumToString n
  if s.length < 2 then String.mk (List.replicate (2 - s.length) '0' ++ s.data) else s

/-- Indexing a destructured array: a missing element is `undefined`, and
`Number(undefined)` is `NaN`. -/
def jsNth (l : List JsNum) (i : Nat) : JsNum := (l.get? i).getD .nan

inductive Wedding where
  | nyc : Wedding
  | france : Wedding
deriving DecidableEq

/-- `EventWithDate` from the source: `EventRecord` (`src/types/event.ts`)
plus the optional resolved date.  Optional string fields are `Option`;
the source tests them with JavaScript truthiness, so `some ""` behaves
like `none` there. -/
structure EventWithDate where
  id : String
  name : String
  eventType : String
  wedding : Wedding
  time : Option String
  location : Option String
  description : Option String
  dayId : Option String
  showOnWebsite : Bool
  date : Option String

def crlf : String := "\r\n"

/-- The per-event body of `buildICS`, given the (truthy) date string
`d`: the `lines` array built for the VEVENT block. -/
def veventLines (stamp : String) (e : EventWithDate) (d : String) : List String :=
  let timezone := if e.wedding = Wedding.nyc then "America/New_York" else "Europe/Paris"
  let uid := e.id ++ "@sargaux.com"
  let parsed := match e.time with
    | none => none
    | some t => if t = "" then none else parseTime t
  let dt : String × String :=
    match parsed with
    | some p =>
      let nums := (jsSplitDash d.data).map jsNumber
      let year := jsNth nums 0
      let month := jsNth nums 1
      let day := jsNth nums 2
      let localStr := jsNumToString year ++ jsPad month ++ jsPad day ++ "T" ++
        jsPad (.num p.hour) ++ jsPad (.num p.minute) ++ "00"
      let endStr := jsNumToString year ++ jsPad month ++ jsPad day ++ "T" ++
        jsPad (.num (p.hour + 2)) ++ jsPad (.num p.minute) ++ "00"
      ("DTSTART;TZID=" ++ timezone ++ ":" ++ localStr,
       "DTEND;TZID=" ++ timezone ++ ":" ++ endStr)
    | none =>
      ("DTSTART;VALUE=DATE:" ++ formatDate d, "DTEND;VALUE=DATE:" ++ formatDate d)
  ["BEGIN:VEVENT", "UID:" ++ uid, "DTSTAMP:" ++ stamp, dt.1, dt.2,
   "SUMMARY:" ++ escapeICS e.name] ++
  (match e.description with
   | some ds => if ds = "" then [] else ["DESCRIPTION:" ++ escapeICS ds]
   | none => []) ++
  (match e.location with
   | some l => if l = "" then [] else ["LOCATION:" ++ escapeICS l]
   | none => []) ++
  ["END:VEVENT"]

/-- One mapped entry of `buildICS`: `null` for an event whose `date` is
falsy, otherwise the joined VEVENT block. -/
def veventFor (stamp : String) (e : EventWithDate) : Option String :=
  match e.date with
  | none => none
  | some d =>
    if d = "" then none
    else some (String.intercalate crlf (veventLines stamp e d))

/-- `buildICS`, with the impure `dtstamp()` result passed in as `stamp`.
`filter(Boolean)` drops the `null` entries (and would drop an empty
string; a VEVENT block is never empty). -/
def buildICS (stamp : String) (events : List EventWithDate) : String :=
  let vevents := String.intercalate crlf
    (((events.map (veventFor stamp)).filterMap id).filter (fun s => s ≠ ""))
  String.intercalate crlf
    ["BEGIN:VCALENDAR", "VERSION:2.0",
     "PRODID:-//Sargaux Wedding//sargaux.com//EN",
     "X-WR-CALNAME:Sargaux Wedding",
     "X-WR-CALDESC:Your personal schedule for Sam & Margaux" ++
       String.singleton (Char.ofNat 39) ++ "s wedding",
     "CALSCALE:GREGORIAN", "METHOD:PUBLISH", vevents, "END:VCALENDAR"]

/-! ### Spec-side reference definitions

These definitions follow the wording of the specification (not the
source) and are compared with the source-translated definitions in the
refinement theorems below. -/

/-- URL-safe base64 alphabet character (RFC 4648 §5) for a 6-bit value:
the alphabet the spec names for the token format. -/
def b64urlChar (v : Nat) : Nat :=
  if v < 26 then 65 + v
  else if v < 52 then 97 + (v - 26)
  else if v < 62 then 48 + (v - 52)
  else if v = 62 then 45
  else 95

/-- The token format section of the spec: URL-safe base64 with no
padding, the alphabet applied directly to the 6-bit groups. -/
def base64urlSpec (bs : Bytes) : Bytes := (encodeVals bs).map b64urlChar

/-- The per-character reading of the four RFC 5545 §3.3.11 substitutions:
what one simultaneous pass substitutes for each character. -/
def escapeChar (c : Char) : List Char :=
  if c = '\\' then ['\\', '\\']
  else if c = ';' then ['\\', ';']
  else if c = ',' then ['\\', ',']
  else if c = '\n' then ['\\', 'n']
  else [c]

/-- One simultaneous escaping pass over the text. -/
def escapeCharwise (cs : List Char) : List Char := (cs.map escapeChar).flatten

/-- Case-insensitive meridiem marker characters; the Boolean is true for
PM. -/
def MeridiemChars (a mc : Char) (pm : Bool) : Prop :=
  (pm = false ∧ (a = 'A' ∨ a = 'a') ∧ (mc = 'M' ∨ mc = 'm')) ∨
  (pm = true ∧ (a = 'P' ∨ a = 'p') ∧ (mc = 'M' ∨ mc = 'm'))

/-- The spec's 12-hour input form `H:MM AM|PM`: a one- or two-digit hour
(both appear in the spec's examples), a colon, a two-digit minute,
optional whitespace, and a case-insensitive meridiem marker, with
nothing after it. -/
def Form12 (s : String) (hr mi : Nat) (pm : Bool) : Prop :=
  ∃ (hd md sp : List Char) (a mc : Char),
    s.data = hd ++ ':' :: (md ++ (sp ++ [a, mc])) ∧
    (hd.length = 1 ∨ hd.length = 2) ∧ (∀ c ∈ hd, c.isDigit) ∧
    md.length = 2 ∧ (∀ c ∈ md, c.isDigit) ∧
    (∀ c ∈ sp, isJsSpace c) ∧ MeridiemChars a mc pm ∧
    hr = digitsVal hd ∧ mi = digitsVal md

/-- The spec's 24-hour input form `HH:MM` (hour of one or two digits):
hour and minute are taken as written. -/
def Form24 (s : String) (hr mi : Nat) : Prop :=
  ∃ (hd md : List Char),
    s.data = hd ++ ':' :: md ∧
    (hd.length = 1 ∨ hd.length = 2) ∧ (∀ c ∈ hd, c.isDigit) ∧
    md.length = 2 ∧ (∀ c ∈ md, c.isDigit) ∧
    hr = digitsVal hd ∧ mi = digitsVal md

/-- The spec's 12-hour conversion table: 12 AM is hour 0, 12 PM is hour
12, other PM hours gain 12, AM hours are as written. -/
def convert12 (h : Nat) (pm : Bool) : Nat :=
  if pm = false ∧ h = 12 then 0
  else if pm = true ∧ h ≠ 12 then h + 12
  else h

/-- JavaScript truthiness of the optional `date` field: present and not
the empty string. -/
def hasDate (e : EventWithDate) : Bool :=
  match e.date with
  | none => false
  | some d => d ≠ ""

/-! ## Lemmas: bytes and base64 -/

theorem encodeVals_lt (bs : Bytes) (hv : ValidBytes bs) : ∀ v ∈ encodeVals bs, v < 64 := by
  match bs with
  | [] => simp [encodeVals]
  | [x] =>
    have hx : x < 256 := hv x (by simp)
    simp only [encodeVals, List.mem_cons, List.not_mem_nil, or_false]
    rintro v (rfl | rfl) <;> omega
  | [x, y] =>
    have hx : x < 256 := hv x (by simp)
    have hy : y < 256 := hv y (by simp)
    simp only [encodeVals, List.mem_cons, List.not_mem_nil, or_false]
    rintro v (rfl | rfl | rfl) <;> omega
  | x :: y :: z :: rest =>
    have hx : x < 256 := hv x (by simp)
    have hy : y < 256 := hv y (by simp)
    have hz : z < 256 := hv z (by simp)
    have ih := encodeVals_lt rest (fun b hb => hv b (by simp [hb]))
    simp only [encodeVals, List.mem_cons]
    rintro v (rfl | rfl | rfl | rfl | hmem)
    · omega
    · omega
    · omega
    · omega
    · exact ih v hmem

theorem decodeVals_encodeVals (bs : Bytes) (hv : ValidBytes bs) :
    decodeVals (encodeVals bs) = bs := by
  match bs with
  | [] => rfl
  | [x] =>
    have hx : x < 256 := hv x (by simp)
    simp only [encodeVals, decodeVals, List.cons.injEq, and_true]
    omega
  | [x, y] =>
    have hx : x < 256 := hv x (by simp)
    have hy : y < 256 := hv y (by simp)
    simp only [encodeVals, decodeVals, List.cons.injEq, and_true]
    omega
  | x :: y :: z :: rest =>
    have hx : x < 256 := hv x (by simp)
    have hy : y < 256 := hv y (by simp)
    have hz : z < 256 := hv z (by simp)
    have ih := decodeVals_encodeVals rest (fun b hb => hv b (by simp [hb]))
    simp only [encodeVals, decodeVals, ih, List.cons.injEq, and_true]
    refine ⟨by omega, by omega, by omega⟩

theorem b64val_b64urlChar : ∀ v, v < 64 → b64val (b64urlChar v) = some v := by decide

theorem b64urlChar_ne_eq : ∀ v, v < 64 → b64urlChar v ≠ 61 := by decide

theorem b64urlChar_ne_dot : ∀ v, v < 64 → b64urlChar v ≠ 46 := by decide

theorem urlmaps_b64char : ∀ v, v < 64 →
    (fun c => if c = 47 then 95 else c) ((fun c => if c = 43 then 45 else c) (b64char v)) =
      b64urlChar v := by decide

theorem unmaps_b64urlChar : ∀ v, v < 64 →
    (fun c => if c = 95 then 47 else c) ((fun c => if c = 45 then 43 else c) (b64urlChar v)) =
      b64char v := by decide

theorem b64val_b64char : ∀ v, v < 64 → b64val (b64char v) = some v := by decide

theorem b64char_ne_eq : ∀ v, v < 64 → b64char v ≠ 61 := by decide

/-- The three global replacements of `toBase64Url` amount to mapping the
URL-safe alphabet over the 6-bit groups: the source encoding equals the
direct URL-safe encoding of the spec. -/
theorem toBase64Url_eq_spec (bs : Bytes) (hv : ValidBytes bs) :
    toBase64Url bs = base64urlSpec bs := by
  have hlt := encodeVals_lt bs hv
  unfold toBase64Url b64encode base64urlSpec
  simp only [List.map_append, List.filter_append, List.map_map, List.map_replicate]
  have h1 : (encodeVals bs).map
      ((fun c => if c = 47 then 95 else c) ∘ (fun c => if c = 43 then 45 else c) ∘ b64char) =
      (encodeVals bs).map b64urlChar :=
    List.map_congr_left (fun v hm => urlmaps_b64char v (hlt v hm))
  rw [h1]
  have h2 : ((encodeVals bs).map b64urlChar).filter (fun c => c ≠ 61) =
      (encodeVals bs).map b64urlChar := by
    rw [List.filter_eq_self]
    intro a ha
    obtain ⟨v, hm, rfl⟩ := List.mem_map.1 ha
    simpa using b64urlChar_ne_eq v (hlt v hm)
  rw [h2]
  simp

theorem filterMap_eq_self_of {α : Type} (l : List α) (f : α → Option α)
    (h : ∀ a ∈ l, f a = some a) : l.filterMap f = l := by
  induction l with
  | nil => rfl
  | cons x xs ih =>
    rw [List.filterMap_cons, h x (by simp)]
    rw [ih (fun a ha => h a (by simp [ha]))]

theorem takeWhile_append_all {α : Type} {p : α → Bool} {xs ys : List α}
    (h : ∀ a ∈ xs, p a) : (xs ++ ys).takeWhile p = xs ++ ys.takeWhile p := by
  rw [List.takeWhile_append, List.takeWhile_eq_self_iff.2 h]
  simp

/-- Decoding the standard-alphabet encoding with any amount of padding
recovers the bytes. -/
theorem b64decode_encoded (bs : Bytes) (k : Nat) (hv : ValidBytes bs) :
    b64decode ((encodeVals bs).map b64char ++ List.replicate k 61) = bs := by
  have hlt := encodeVals_lt bs hv
  have hne61 : ∀ c ∈ (encodeVals bs).map b64char, (fun c => decide (c ≠ 61)) c = true := by
    intro c hc
    obtain ⟨v, hm, rfl⟩ := List.mem_map.1 hc
    simpa using b64char_ne_eq v (hlt v hm)
  unfold b64decode
  rw [takeWhile_append_all hne61]
  have hrep : (List.replicate k 61).takeWhile (fun c => decide (c ≠ 61)) = [] := by
    cases k with
    | zero => rfl
    | succ n => simp [List.replicate_succ]
  rw [hrep, List.append_nil, List.filterMap_map]
  rw [filterMap_eq_self_of _ _ (fun v hm => by
    have := b64val_b64char v (hlt v hm)
    simpa using this)]
  exact decodeVals_encodeVals bs hv

/-- Round trip of the source base64url codec on byte strings. -/
theorem fromBase64Url_toBase64Url (bs : Bytes) (hv : ValidBytes bs) :
    fromBase64Url (toBase64Url bs) = some bs := by
  have hlt := encodeVals_lt bs hv
  rw [toBase64Url_eq_spec bs hv]
  unfold fromBase64Url base64urlSpec
  simp only [List.map_map]
  have h1 : (encodeVals bs).map
      ((fun c => if c = 95 then 47 else c) ∘ (fun c => if c = 45 then 43 else c) ∘ b64urlChar) =
      (encodeVals bs).map b64char :=
    List.map_congr_left (fun v hm => unmaps_b64urlChar v (hlt v hm))
  rw [h1]
  split
  · have h0 := b64decode_encoded bs 0 hv
    simpa using h0
  · exact congrArg some (b64decode_encoded bs _ hv)

/-! ## Lemmas: token verification -/

theorem findIdx?_append_dot (l r : Bytes) (h : ∀ c ∈ l, (c == 46) = false) :
    (l ++ 46 :: r).findIdx? (fun c => c == 46) = some l.length := by
  induction l with
  | nil => simp
  | cons x xs ih =>
    have hx : (x == 46) = false := h x (by simp)
    simp only [List.cons_append, List.findIdx?_cons, hx, Bool.false_eq_true, if_false,
      List.findIdx?_start_succ]
    rw [ih (fun c hc => h c (by simp [hc]))]
    rfl

theorem ctDiff_self (a : Bytes) : ctDiff a a = 0 := by
  unfold ctDiff
  have gen : ∀ (l : Bytes) (d : Nat),
      (l.zip l).foldl (fun d p => d ||| (p.1 ^^^ p.2)) d = d := by
    intro l
    induction l with
    | nil => intro d; rfl
    | cons x xs ih =>
      intro d
      simp only [List.zip_cons_cons, List.foldl_cons, Nat.xor_self, Nat.or_zero]
      exact ih d
  exact gen a 0

theorem lor_eq_zero_parts {a b : Nat} (h : a ||| b = 0) : a = 0 ∧ b = 0 := by
  constructor
  · apply Nat.eq_of_testBit_eq
    intro i
    have := congrArg (fun n => n.testBit i) h
    simp only [Nat.testBit_or, Nat.zero_testBit, Bool.or_eq_false_iff] at this
    simp [this.1]
  · apply Nat.eq_of_testBit_eq
    intro i
    have := congrArg (fun n => n.testBit i) h
    simp only [Nat.testBit_or, Nat.zero_testBit, Bool.or_eq_false_iff] at this
    simp [this.2]

theorem ctFold_eq_zero (ps : List (Nat × Nat)) (d : Nat) :
    ps.foldl (fun d p => d ||| (p.1 ^^^ p.2)) d = 0 ↔ (d = 0 ∧ ∀ p ∈ ps, p.1 = p.2) := by
  induction ps generalizing d with
  | nil => simp
  | cons q qs ih =>
    simp only [List.foldl_cons, ih, List.mem_cons]
    constructor
    · rintro ⟨hd, hall⟩
      obtain ⟨hd0, hq0⟩ := lor_eq_zero_parts hd
      refine ⟨hd0, ?_⟩
      rintro p (rfl | hp)
      · exact Nat.xor_eq_zero.1 hq0
      · exact hall p hp
    · rintro ⟨hd0, hall⟩
      subst hd0
      refine ⟨by simp [Nat.xor_eq_zero.2 (hall q (Or.inl rfl))],
        fun p hp => hall p (Or.inr hp)⟩

theorem zip_all_eq_iff (a b : Bytes) (hlen : a.length = b.length) :
    (∀ p ∈ a.zip b, p.1 = p.2) ↔ a = b := by
  induction a generalizing b with
  | nil =>
    cases b with
    | nil => simp
    | cons y ys => simp at hlen
  | cons x xs ih =>
    cases b with
    | nil => simp at hlen
    | cons y ys =>
      have hlen' : xs.length = ys.length := by simpa using hlen
      simp only [List.zip_cons_cons, List.mem_cons, List.cons.injEq]
      constructor
      · intro hall
        exact ⟨hall (x, y) (Or.inl rfl), (ih ys hlen').1 (fun p hp => hall p (Or.inr hp))⟩
      · rintro ⟨rfl, rfl⟩ p hpm
        rcases hpm with rfl | hp
        · rfl
        · exact (ih _ rfl).2 rfl p hp

theorem ctDiff_eq_zero_iff (a b : Bytes) (hlen : a.length = b.length) :
    ctDiff a b = 0 ↔ a = b := by
  unfold ctDiff
  rw [ctFold_eq_zero]
  simp only [true_and]
  exact zip_all_eq_iff a b hlen

theorem natToBytesBE_length (k n : Nat) : (natToBytesBE k n).length = k := by
  simp [natToBytesBE]

theorem sha256_length (msg : Bytes) : (sha256 msg).length = 32 := by
  unfold sha256 wordsToBytes
  simp [natToBytesBE_length]

theorem bytesToHex_length (bs : Bytes) : (bytesToHex bs).length = 2 * bs.length := by
  unfold bytesToHex
  induction bs with
  | nil => rfl
  | cons x xs ih =>
    simp only [List.map_cons, List.flatten_cons, List.length_append, List.length_cons,
      List.length_nil] at ih ⊢
    omega

theorem hmacSha256_length (key msg : Bytes) : (hmacSha256 key msg).length = 32 := by
  unfold hmacSha256
  exact sha256_length _

theorem computeHmac_length (s g h : Bytes) (hc : computeHmac (some s) g = some h) :
    h.length = 32 := by
  unfold computeHmac at hc
  rw [Option.some_inj] at hc
  subst hc
  rw [List.length_take, bytesToHex_length, hmacSha256_length]
  omega

/-- Splitting behaviour of `verifyToken` on a token whose first segment
contains no dot: the remaining checks on the two segments. -/
theorem verifyToken_split (sec : Option Bytes) (enc rest : Bytes)
    (h46 : ∀ c ∈ enc, (c == 46) = false) :
    verifyToken sec (enc ++ 46 :: rest) =
      match fromBase64Url enc with
      | none => none
      | some [] => none
      | some guestId =>
        match computeHmac sec guestId with
        | none => none
        | some expectedHmac =>
          if rest.length ≠ expectedHmac.length then none
          else if ctDiff rest expectedHmac = 0 then some guestId
          else none := by
  have htake : (enc ++ 46 :: rest).take enc.length = enc := List.take_left enc _
  have hdrop : (enc ++ 46 :: rest).drop (enc.length + 1) = rest := by
    rw [show enc ++ 46 :: rest = (enc ++ [46]) ++ rest by simp]
    exact List.drop_left' (by simp)
  unfold verifyToken
  rw [findIdx?_append_dot enc rest h46]
  dsimp only
  rw [htake, hdrop]

theorem toBase64Url_no_dot (bs : Bytes) (hv : ValidBytes bs) :
    ∀ c ∈ toBase64Url bs, (c == 46) = false := by
  rw [toBase64Url_eq_spec bs hv]
  intro c hc
  obtain ⟨v, hm, rfl⟩ := List.mem_map.1 hc
  simpa using b64urlChar_ne_dot v (encodeVals_lt bs hv v hm)

/-- A token whose first byte is the dot separator has an empty first
segment, which decodes to the empty (falsy) string: always invalid. -/
theorem verifyToken_dot_first (sec : Option Bytes) (rest : Bytes) :
    verifyToken sec (46 :: rest) = none := by
  have h := verifyToken_split sec [] rest (by simp)
  simpa using h

/-! ## Claim C1 -/

/-- **C1** (amended): for every secret and every nonempty guest
identifier (as a UTF-8 byte string), verifying the generated token
recovers the guest identifier. -/
theorem C1_amended_roundtrip (s g : Bytes) (hv : ValidBytes g) (hg : g ≠ []) :
    (generateToken (some s) g).bind (verifyToken (some s)) = some g := by
  have hdot := toBase64Url_no_dot g hv
  unfold generateToken computeHmac
  simp only [Option.map_some', Option.some_bind]
  rw [verifyToken_split (some s) _ _ hdot]
  rw [fromBase64Url_toBase64Url g hv]
  cases g with
  | nil => exact absurd rfl hg
  | cons x xs =>
    dsimp only
    unfold computeHmac
    dsimp only
    simp [ctDiff_self]

/-- **C1** (counterexample to the claim as stated): for the empty guest
identifier the round trip yields invalid, not the identifier, because
`verifyToken` rejects the falsy empty decoded string. -/
theorem C1_counterexample_empty_guest :
    (generateToken (some [115]) []).bind (verifyToken (some [115])) ≠ some [] := by
  unfold generateToken computeHmac
  simp only [Option.map_some', Option.some_bind]
  have : toBase64Url [] = [] := rfl
  rw [show toBase64Url [] ++ 46 :: (bytesToHex (hmacSha256 [115] [])).take 32 =
      46 :: (bytesToHex (hmacSha256 [115] [])).take 32 from by rw [this]; rfl]
  rw [verifyToken_dot_first]
  simp

/-- Witness for C1: the amended round trip at secret `"s"` and guest
`"a"`. -/
theorem C1_amended_roundtrip_witness :
    (generateToken (some [115]) [97]).bind (verifyToken (some [115])) = some [97] :=
  C1_amended_roundtrip [115] [97] (by decide) (by decide)

/-! ## Claim C2 -/

/-- **C2** (amended): replacing one character of a generated token at
any position strictly after the dot separator (the signature segment)
with a different byte makes `verifyToken` return invalid.  (A mutation
in the encoded segment does not always invalidate: see the
counterexample.) -/
theorem C2_amended_signature_mutation (s g t : Bytes) (i b : Nat)
    (hv : ValidBytes g) (hg : g ≠ [])
    (hgen : generateToken (some s) g = some t)
    (hi1 : (toBase64Url g).length < i) (hi2 : i < t.length)
    (hb : b < 256) (hne : t.getD i 0 ≠ b) :
    verifyToken (some s) (t.set i b) = none := by
  unfold generateToken computeHmac at hgen
  simp only [Option.map_some', Option.some_inj] at hgen
  subst hgen
  have hdot := toBase64Url_no_dot g hv
  set enc := toBase64Url g with henc
  set hm := (bytesToHex (hmacSha256 s g)).take 32 with hhm
  have hmLen : hm.length = 32 := by
    rw [hhm, List.length_take, bytesToHex_length, hmacSha256_length]
    omega
  have hlen : (enc ++ 46 :: hm).length = enc.length + 1 + hm.length := by simp; omega
  set j := i - enc.length - 1 with hj
  have hij : i - enc.length = j + 1 := by omega
  have hjlt : j < hm.length := by omega
  have hset : (enc ++ 46 :: hm).set i b = enc ++ 46 :: hm.set j b := by
    rw [List.set_append_right _ _ (by omega), hij, List.set_cons_succ]
  have hgetD : (enc ++ 46 :: hm).getD i 0 = hm.getD j 0 := by
    simp only [List.getD_eq_getElem?_getD]
    rw [List.getElem?_append_right (by omega), hij, List.getElem?_cons_succ]
  rw [hset, verifyToken_split (some s) _ _ hdot, fromBase64Url_toBase64Url g hv]
  cases g with
  | nil => exact absurd rfl hg
  | cons x xs =>
    dsimp only
    unfold computeHmac
    dsimp only
    have hlenEq : (hm.set j b).length = hm.length := List.length_set hm i b ▸ by simp
    rw [if_neg (by simp [List.length_set, hmLen, hhm])]
    have hsetne : hm.set j b ≠ hm := by
      intro heq
      have h1 : (hm.set j b)[j]? = hm[j]? := by rw [heq]
      rw [List.getElem?_set_self (by simpa using hjlt)] at h1
      have h2 : hm.getD j 0 = b := by
        rw [List.getD_eq_getElem?_getD, ← h1]
        rfl
      rw [hgetD] at hne
      exact hne h2
    rw [if_neg (by
      intro hzero
      exact hsetne ((ctDiff_eq_zero_iff _ _ (by simp [hmLen])).1 hzero))]

set_option maxRecDepth 4000 in
/-- **C2** (counterexample to the claim as stated): for secret `"s"` and
guest `"a"`, the token starts with the encoded segment `"YQ"` and the
dot at index 2; replacing the character at index 1 (`'Q'`, inside the
encoded segment) with `'R'` leaves a token that still verifies to
`"a"`, because the mutation only changes base64 padding bits that the
decoder discards. -/
theorem C2_counterexample_encoded_mutation :
    (generateToken (some [115]) [97]).map (fun t => t.take 3) = some [89, 81, 46] ∧
    ((generateToken (some [115]) [97]).map (fun t => t.set 1 82)).bind
      (verifyToken (some [115])) = some [97] := by
  unfold generateToken computeHmac
  simp only [Option.map_some', Option.some_bind]
  constructor
  · rw [show toBase64Url [97] = [89, 81] from rfl]
    rfl
  · rw [show toBase64Url [97] = [89, 81] from rfl]
    have hset : ([89, 81] ++ 46 :: (bytesToHex (hmacSha256 [115] [97])).take 32).set 1 82 =
        [89, 82] ++ 46 :: (bytesToHex (hmacSha256 [115] [97])).take 32 := by
      simp [List.set]
    rw [hset, verifyToken_split (some [115]) [89, 82] _ (by decide)]
    rw [show fromBase64Url [89, 82] = some [97] from rfl]
    dsimp only
    unfold computeHmac
    dsimp only
    simp [ctDiff_self]

set_option maxRecDepth 8000 in
/-- Witness for C2 (amended): the concrete token for secret `"s"` and
guest `"a"`, with the first signature character (index 3) replaced by a
dot, is rejected. -/
theorem C2_amended_signature_mutation_witness :
    verifyToken (some [115])
      ((([89, 81, 46, 57, 54, 53, 57, 52, 53, 48, 56, 57, 55, 49, 56, 56, 100, 48,
          53, 52, 102, 57, 99, 50, 48, 51, 49, 48, 51, 52, 50, 101, 48, 52, 50] :
        Bytes).set 3 46)) = none :=
  C2_amended_signature_mutation [115] [97] _ 3 46 (by decide) (by decide)
    (by decide) (by decide) (by decide) (by decide) (by decide)

/-! ## Claim C3 -/

/-- **C3**: with a configured secret, `generateToken` produces exactly
the URL-safe unpadded base64 encoding of the guest identifier (in the
spec's direct-alphabet reading), a dot, and the first 32 hex characters
of HMAC-SHA256 of the identifier under the secret. -/
theorem C3_token_format (s g : Bytes) (hv : ValidBytes g) :
    generateToken (some s) g =
      some (base64urlSpec g ++ 46 :: (bytesToHex (hmacSha256 s g)).take 32) := by
  unfold generateToken computeHmac
  simp only [Option.map_some']
  rw [toBase64Url_eq_spec g hv]

/-- Witness for C3 at secret `"s"` and guest `"a"`. -/
theorem C3_token_format_witness :
    generateToken (some [115]) [97] =
      some (base64urlSpec [97] ++ 46 :: (bytesToHex (hmacSha256 [115] [97])).take 32) :=
  C3_token_format [115] [97] (by decide)

/-! ## Claim C4 -/

/-- **C4**: `verifyToken` is total and returns the invalid marker on
every malformed input: a token with no dot separator, an empty first
segment, a first segment whose decoding yields nothing, or an empty
second segment; and with no configured secret every token is invalid. -/
theorem C4_verify_never_throws (sec : Option Bytes) (t : Bytes) :
    (t.findIdx? (fun c => c == 46) = none → verifyToken sec t = none) ∧
    (∀ i, t.findIdx? (fun c => c == 46) = some i →
      ((t.take i = [] → verifyToken sec t = none) ∧
       (fromBase64Url (t.take i) = some [] → verifyToken sec t = none) ∧
       (t.drop (i + 1) = [] → verifyToken sec t = none))) ∧
    (verifyToken none t = none) := by
  refine ⟨?_, ?_, ?_⟩
  · intro h
    unfold verifyToken
    rw [h]
  · intro i hi
    refine ⟨?_, ?_, ?_⟩
    · intro htake
      have hdec : fromBase64Url (t.take i) = some [] := by rw [htake]; rfl
      unfold verifyToken
      rw [hi]
      dsimp only
      rw [hdec]
    · intro hdec
      unfold verifyToken
      rw [hi]
      dsimp only
      rw [hdec]
    · intro hdrop
      unfold verifyToken
      rw [hi]
      dsimp only
      rw [hdrop]
      rcases hfb : fromBase64Url (t.take i) with _ | l
      · rfl
      · cases l with
        | nil => rfl
        | cons x xs =>
          dsimp only
          rcases sec with _ | s
          · rfl
          · unfold computeHmac
            dsimp only
            rw [if_pos]
            simp only [List.length_nil, List.length_take, bytesToHex_length,
              hmacSha256_length]
            omega
  · unfold verifyToken
    rcases hidx : t.findIdx? (fun c => c == 46) with _ | i
    · rfl
    · dsimp only
      rcases hfb : fromBase64Url (t.take i) with _ | l
      · rfl
      · cases l with
        | nil => rfl
        | cons x xs => rfl

/-- Witness for C4: concrete invalid inputs for each branch — no dot,
leading dot, an undecodable first segment (`"!"`), an empty signature
segment, and a missing secret. -/
theorem C4_verify_never_throws_witness :
    verifyToken (some [115]) [97] = none ∧
    verifyToken (some [115]) [46, 97] = none ∧
    verifyToken (some [115]) [33, 46, 48] = none ∧
    verifyToken (some [115]) [89, 81, 46] = none ∧
    verifyToken none [89, 81, 46, 48] = none :=
  ⟨(C4_verify_never_throws (some [115]) [97]).1 (by decide),
   ((C4_verify_never_throws (some [115]) [46, 97]).2.1 0 (by decide)).1 (by decide),
   ((C4_verify_never_throws (some [115]) [33, 46, 48]).2.1 1 (by decide)).2.1 (by decide),
   ((C4_verify_never_throws (some [115]) [89, 81, 46]).2.1 2 (by decide)).2.2 (by decide),
   (C4_verify_never_throws none [89, 81, 46, 48]).2.2⟩

/-! ## Claim C7 -/

theorem replaceChar_append (c : Char) (rep l₁ l₂ : List Char) :
    replaceChar c rep (l₁ ++ l₂) = replaceChar c rep l₁ ++ replaceChar c rep l₂ := by
  induction l₁ with
  | nil => rfl
  | cons x xs ih =>
    simp only [List.cons_append, replaceChar, ih]
    split <;> simp [ih]

theorem replaceChar_cons (c : Char) (rep : List Char) (x : Char) (xs : List Char) :
    replaceChar c rep (x :: xs) =
      (if x = c then rep else [x]) ++ replaceChar c rep xs := by
  simp only [replaceChar]
  split <;> simp

theorem escapeICSList_cons (x : Char) (xs : List Char) :
    escapeICSList (x :: xs) = escapeChar x ++ escapeICSList xs := by
  unfold escapeICSList escapeChar
  rw [replaceChar_cons, replaceChar_append, replaceChar_append, replaceChar_append]
  by_cases h1 : x = '\\'
  · subst h1; rfl
  · by_cases h2 : x = ';'
    · subst h2; rfl
    · by_cases h3 : x = ','
      · subst h3; rfl
      · by_cases h4 : x = '\n'
        · subst h4; rfl
        · simp [replaceChar, h1, h2, h3, h4]

theorem escapeICSList_eq_charwise (cs : List Char) :
    escapeICSList cs = escapeCharwise cs := by
  induction cs with
  | nil => rfl
  | cons x xs ih => rw [escapeICSList_cons, ih]; simp [escapeCharwise]

theorem unescape_escapeChar (x : Char) (l : List Char) :
    unescapeICSList (escapeChar x ++ l) = x :: unescapeICSList l := by
  unfold escapeChar
  by_cases h1 : x = '\\'
  · subst h1; simp [unescapeICSList]
  · by_cases h2 : x = ';'
    · subst h2; simp [unescapeICSList]
    · by_cases h3 : x = ','
      · subst h3; simp [unescapeICSList]
      · by_cases h4 : x = '\n'
        · subst h4; simp [unescapeICSList]
        · simp only [h1, h2, h3, h4, if_false, List.singleton_append]
          cases l with
          | nil => simp [unescapeICSList]
          | cons y ys => simp [unescapeICSList, h1]

theorem unescape_escapeCharwise (cs : List Char) :
    unescapeICSList (escapeCharwise cs) = cs := by
  induction cs with
  | nil => simp [escapeCharwise, unescapeICSList]
  | cons x xs ih =>
    have : escapeCharwise (x :: xs) = escapeChar x ++ escapeCharwise xs := by
      simp [escapeCharwise]
    rw [this, unescape_escapeChar, ih]

/-- **C7**: the four sequential replacements of `escapeICS` act as one
simultaneous per-character substitution (no output of a later
substitution is re-escaped), and un-escaping the escaped text recovers
the original text exactly, for every text. -/
theorem C7_escape_roundtrip (s : String) :
    escapeICS s = String.mk (escapeCharwise s.data) ∧
    unescapeICS (escapeICS s) = s := by
  constructor
  · unfold escapeICS
    rw [escapeICSList_eq_charwise]
  · unfold escapeICS unescapeICS
    rw [show (String.mk (escapeICSList s.data)).data = escapeICSList s.data from rfl]
    rw [escapeICSList_eq_charwise, unescape_escapeCharwise]

/-! ## Claim C8 -/

theorem veventFor_none_of (stamp : String) (e : EventWithDate)
    (h : hasDate e = false) : veventFor stamp e = none := by
  unfold veventFor
  unfold hasDate at h
  rcases hd : e.date with _ | d
  · rfl
  · rw [hd] at h
    dsimp only at h ⊢
    simp at h
    rw [if_pos h]

theorem veventFor_some_of (stamp : String) (e : EventWithDate)
    (h : hasDate e = true) :
    ∃ d, e.date = some d ∧ d ≠ "" ∧
      veventFor stamp e = some (String.intercalate crlf (veventLines stamp e d)) := by
  unfold veventFor
  unfold hasDate at h
  rcases hd : e.date with _ | d
  · rw [hd] at h; simp at h
  · rw [hd] at h
    dsimp only at h ⊢
    simp at h
    refine ⟨d, rfl, h, ?_⟩
    rw [if_neg h]

/-- **C8**: occurrences without a (truthy) resolvable date contribute
nothing to the feed: the rendered output equals the output on the list
with them removed, so they are absent and never an error, while every
other occurrence is still rendered. -/
theorem C8_dateless_dropped (stamp : String) (events : List EventWithDate) :
    buildICS stamp events = buildICS stamp (events.filter hasDate) := by
  unfold buildICS
  have hmap : (events.map (veventFor stamp)).filterMap id =
      (((events.filter hasDate).map (veventFor stamp)).filterMap id) := by
    induction events with
    | nil => rfl
    | cons e es ih =>
      rcases hd : hasDate e with _ | _
      · rw [List.filter_cons_of_neg (by simp [hd]), List.map_cons, List.filterMap_cons,
          veventFor_none_of stamp e hd]
        exact ih
      · obtain ⟨d, _, _, hsome⟩ := veventFor_some_of stamp e hd
        rw [List.filter_cons_of_pos (by simp [hd]), List.map_cons, List.map_cons,
          List.filterMap_cons, List.filterMap_cons, hsome]
        simp only [ih]
  rw [hmap]

/-! ## Claim C9 -/

/-- **C9**: an occurrence with a (truthy) resolvable date whose time is
absent, falsy, or unparseable renders without error as an all-day
entry: `DTSTART;VALUE=DATE` and `DTEND;VALUE=DATE`, both carrying the
same date. -/
theorem C9_allday_degrade (stamp : String) (e : EventWithDate) (d : String)
    (hdate : e.date = some d) (hdne : d ≠ "")
    (htime : e.time = none ∨ e.time = some "" ∨
      ∃ t, e.time = some t ∧ parseTime t = none) :
    veventFor stamp e = some (String.intercalate crlf (veventLines stamp e d)) ∧
    ("DTSTART;VALUE=DATE:" ++ formatDate d) ∈ veventLines stamp e d ∧
    ("DTEND;VALUE=DATE:" ++ formatDate d) ∈ veventLines stamp e d := by
  have hpar : (match e.time with
      | none => none
      | some t => if t = "" then none else parseTime t) = (none : Option TimeHM) := by
    rcases htime with h | h | ⟨t, ht, hpt⟩
    · rw [h]
    · rw [h]; simp
    · rw [ht]
      dsimp only
      by_cases ht0 : t = ""
      · rw [if_pos ht0]
      · rw [if_neg ht0, hpt]
  refine ⟨?_, ?_, ?_⟩
  · unfold veventFor
    rw [hdate]
    dsimp only
    rw [if_neg hdne]
  · unfold veventLines
    rw [hpar]
    simp
  · unfold veventLines
    rw [hpar]
    simp

/-- Witness for C9: the spec's example, a France event dated
`"2027-05-29"` with no time annotation. -/
theorem C9_allday_degrade_witness :
    ("DTSTART;VALUE=DATE:" ++ formatDate "2027-05-29") ∈
      veventLines "20260220T120000Z"
        { id := "e2", name := "Brunch", eventType := "Core",
          wedding := Wedding.france, time := none, location := none,
          description := none, dayId := none, showOnWebsite := true,
          date := some "2027-05-29" } "2027-05-29" :=
  (C9_allday_degrade "20260220T120000Z"
    { id := "e2", name := "Brunch", eventType := "Core",
      wedding := Wedding.france, time := none, location := none,
      description := none, dayId := none, showOnWebsite := true,
      date := some "2027-05-29" } "2027-05-29" rfl (by decide) (Or.inl rfl)).2.1

/-! ## Claim C6 -/

/-- **C6**: an occurrence with a truthy well-formed date and a parseable
time renders `DTSTART` and `DTEND` lines carrying an explicit `TZID`
parameter (`America/New_York` for the nyc wedding, `Europe/Paris`
otherwise), and the `DTEND` hour field is the `DTSTART` hour plus two,
with the same minute. -/
theorem C6_timed_two_hour (stamp : String) (e : EventWithDate)
    (d t : String) (ys ms ds : List Char) (y mo dd h mi : Nat)
    (hdate : e.date = some d) (hdne : d ≠ "")
    (htime : e.time = some t) (htne : t ≠ "")
    (hpt : parseTime t = some ⟨h, mi⟩)
    (hsplit : jsSplitDash d.data = [ys, ms, ds])
    (hy : jsNumber ys = JsNum.num y) (hmo : jsNumber ms = JsNum.num mo)
    (hdd : jsNumber ds = JsNum.num dd) :
    veventFor stamp e = some (String.intercalate crlf (veventLines stamp e d)) ∧
    ("DTSTART;TZID=" ++
        (if e.wedding = Wedding.nyc then "America/New_York" else "Europe/Paris") ++
        ":" ++ (jsNumToString (JsNum.num y) ++ jsPad (JsNum.num mo) ++
          jsPad (JsNum.num dd) ++ "T" ++ jsPad (JsNum.num h) ++
          jsPad (JsNum.num mi) ++ "00")) ∈ veventLines stamp e d ∧
    ("DTEND;TZID=" ++
        (if e.wedding = Wedding.nyc then "America/New_York" else "Europe/Paris") ++
        ":" ++ (jsNumToString (JsNum.num y) ++ jsPad (JsNum.num mo) ++
          jsPad (JsNum.num dd) ++ "T" ++ jsPad (JsNum.num (h + 2)) ++
          jsPad (JsNum.num mi) ++ "00")) ∈ veventLines stamp e d := by
  have hpar : (match e.time with
      | none => none
      | some t => if t = "" then none else parseTime t) = some (⟨h, mi⟩ : TimeHM) := by
    rw [htime]
    dsimp only
    rw [if_neg htne, hpt]
  refine ⟨?_, ?_, ?_⟩
  · unfold veventFor
    rw [hdate]
    dsimp only
    rw [if_neg hdne]
  · unfold veventLines
    rw [hpar, hsplit]
    simp only [List.map_cons, List.map_nil, hy, hmo, hdd]
    simp [jsNth]
  · unfold veventLines
    rw [hpar, hsplit]
    simp only [List.map_cons, List.map_nil, hy, hmo, hdd]
    simp [jsNth]

/-- Witness for C6: the spec's example — the nyc wedding, date
`"2026-10-11"`, time `"6:00 PM"` — renders
`DTSTART;TZID=America/New_York:20261011T180000` and a `DTEND` two hours
later. -/
theorem C6_timed_two_hour_witness :
    "DTSTART;TZID=America/New_York:20261011T180000" ∈
      veventLines "20260220T120000Z"
        { id := "ev1", name := "Dinner", eventType := "Core",
          wedding := Wedding.nyc, time := some "6:00 PM", location := none,
          description := none, dayId := none, showOnWebsite := true,
          date := some "2026-10-11" } "2026-10-11" ∧
    "DTEND;TZID=America/New_York:20261011T200000" ∈
      veventLines "20260220T120000Z"
        { id := "ev1", name := "Dinner", eventType := "Core",
          wedding := Wedding.nyc, time := some "6:00 PM", location := none,
          description := none, dayId := none, showOnWebsite := true,
          date := some "2026-10-11" } "2026-10-11" := by
  have hmain := C6_timed_two_hour "20260220T120000Z"
    { id := "ev1", name := "Dinner", eventType := "Core",
      wedding := Wedding.nyc, time := some "6:00 PM", location := none,
      description := none, dayId := none, showOnWebsite := true,
      date := some "2026-10-11" }
    "2026-10-11" "6:00 PM" ['2','0','2','6'] ['1','0'] ['1','1'] 2026 10 11 18 0
    rfl (by decide) rfl (by decide) (by decide) (by decide) (by decide)
    (by decide) (by decide)
  constructor
  · have h1 := hmain.2.1
    simpa using h1
  · have h2 := hmain.2.2
    simpa using h2

/-! ## Claim C5: lemmas about the regex matchers -/

theorem digit_ne_colon {c : Char} (h : c.isDigit) : c ≠ ':' := by
  intro hc
  subst hc
  exact absurd h (by decide)

theorem matchHM_one (d1 m1 m2 : Char) (rest : List Char)
    (h1 : d1.isDigit) (h3 : m1.isDigit) (h4 : m2.isDigit) :
    matchHM (d1 :: ':' :: m1 :: m2 :: rest) =
      some (digitVal d1, 10 * digitVal m1 + digitVal m2, rest) := by
  simp [matchHM, h1, h3, h4]

theorem matchHM_two (d1 d2 m1 m2 : Char) (rest : List Char)
    (h1 : d1.isDigit) (h2 : d2.isDigit) (h3 : m1.isDigit) (h4 : m2.isDigit) :
    matchHM (d1 :: d2 :: ':' :: m1 :: m2 :: rest) =
      some (10 * digitVal d1 + digitVal d2, 10 * digitVal m1 + digitVal m2, rest) := by
  simp [matchHM, h1, h2, h3, h4, digit_ne_colon h2]

theorem matchHM_complete (hd md rest : List Char)
    (hlen : hd.length = 1 ∨ hd.length = 2) (hdig : ∀ c ∈ hd, c.isDigit)
    (hmdl : md.length = 2) (hmdig : ∀ c ∈ md, c.isDigit) :
    matchHM (hd ++ ':' :: (md ++ rest)) = some (digitsVal hd, digitsVal md, rest) := by
  rcases md with _ | ⟨m1, _ | ⟨m2, _ | _⟩⟩ <;> simp at hmdl
  have hm1 : m1.isDigit := hmdig m1 (by simp)
  have hm2 : m2.isDigit := hmdig m2 (by simp)
  rcases hd with _ | ⟨d1, _ | ⟨d2, _ | _⟩⟩ <;> simp at hlen
  · have hd1 : d1.isDigit := hdig d1 (by simp)
    rw [show ([d1] ++ ':' :: ([m1, m2] ++ rest)) = d1 :: ':' :: m1 :: m2 :: rest from rfl]
    rw [matchHM_one d1 m1 m2 rest hd1 hm1 hm2]
    simp [digitsVal]
  · have hd1 : d1.isDigit := hdig d1 (by simp)
    have hd2 : d2.isDigit := hdig d2 (by simp)
    rw [show ([d1, d2] ++ ':' :: ([m1, m2] ++ rest)) = d1 :: d2 :: ':' :: m1 :: m2 :: rest
      from rfl]
    rw [matchHM_two d1 d2 m1 m2 rest hd1 hd2 hm1 hm2]
    simp [digitsVal]

theorem matchHM_sound (cs : List Char) (h m : Nat) (rest : List Char)
    (hm : matchHM cs = some (h, m, rest)) :
    ∃ hd md, cs = hd ++ ':' :: (md ++ rest) ∧
      (hd.length = 1 ∨ hd.length = 2) ∧ (∀ c ∈ hd, c.isDigit) ∧
      md.length = 2 ∧ (∀ c ∈ md, c.isDigit) ∧
      h = digitsVal hd ∧ m = digitsVal md := by
  rcases cs with _ | ⟨c1, _ | ⟨c2, rest2⟩⟩
  · simp [matchHM] at hm
  · simp [matchHM] at hm
  · unfold matchHM at hm
    dsimp only at hm
    by_cases h1 : c1.isDigit
    case neg => simp [h1] at hm
    rw [if_pos h1] at hm
    by_cases h2 : c2 = ':'
    · subst h2
      rw [if_pos rfl] at hm
      rcases rest2 with _ | ⟨m1, _ | ⟨m2, rest'⟩⟩
      · simp at hm
      · simp at hm
      · dsimp only at hm
        by_cases h34 : m1.isDigit && m2.isDigit
        case neg => rw [if_neg h34] at hm; simp at hm
        rw [if_pos h34] at hm
        obtain ⟨hm1, hm2⟩ := Bool.and_eq_true _ _ ▸ h34
        simp only [Option.some_inj, Prod.mk.injEq] at hm
        obtain ⟨hh, hmm, hrest⟩ := hm
        subst hrest
        refine ⟨[c1], [m1, m2], by simp, by simp, ?_, by simp, ?_, ?_, ?_⟩
        · intro c hc; simp at hc; subst hc; exact h1
        · intro c hc
          rcases List.mem_cons.1 hc with rfl | hc2
          · exact hm1
          · simp at hc2; subst hc2; exact hm2
        · rw [← hh]; simp [digitsVal]
        · rw [← hmm]; simp [digitsVal]
    · rw [if_neg h2] at hm
      by_cases h2d : c2.isDigit
      case neg => simp [h2d] at hm
      rw [if_pos h2d] at hm
      rcases rest2 with _ | ⟨c3, _ | ⟨m1, _ | ⟨m2, rest'⟩⟩⟩
      · simp at hm
      · simp at hm
      · simp at hm
      · dsimp only at hm
        by_cases hg : c3 = ':' && m1.isDigit && m2.isDigit
        case neg => rw [if_neg hg] at hm; simp at hm
        rw [if_pos hg] at hm
        have hg' := hg
        simp only [Bool.and_eq_true, decide_eq_true_eq] at hg'
        obtain ⟨⟨hc3, hm1⟩, hm2⟩ := hg'
        subst hc3
        simp only [Option.some_inj, Prod.mk.injEq] at hm
        obtain ⟨hh, hmm, hrest⟩ := hm
        subst hrest
        refine ⟨[c1, c2], [m1, m2], by simp, by simp, ?_, by simp, ?_, ?_, ?_⟩
        · intro c hc
          rcases List.mem_cons.1 hc with rfl | hc2
          · exact h1
          · simp at hc2; subst hc2; exact h2d
        · intro c hc
          rcases List.mem_cons.1 hc with rfl | hc2
          · exact hm1
          · simp at hc2; subst hc2; exact hm2
        · rw [← hh]; simp [digitsVal]
        · rw [← hmm]; simp [digitsVal]

theorem meridiem_not_space (a mc : Char) (pm : Bool) (h : MeridiemChars a mc pm) :
    isJsSpace a = false := by
  rcases h with ⟨_, ha, _⟩ | ⟨_, ha, _⟩ <;> rcases ha with rfl | rfl <;> decide

theorem dropWhile_space_append (sp : List Char) (a : Char) (l : List Char)
    (hsp : ∀ c ∈ sp, isJsSpace c) (ha : isJsSpace a = false) :
    (sp ++ a :: l).dropWhile isJsSpace = a :: l := by
  rw [List.dropWhile_append_of_pos hsp]
  simp [List.dropWhile_cons, ha]

theorem match12_complete (hd md sp : List Char) (a mc : Char) (pm : Bool)
    (hlen : hd.length = 1 ∨ hd.length = 2) (hdig : ∀ c ∈ hd, c.isDigit)
    (hmdl : md.length = 2) (hmdig : ∀ c ∈ md, c.isDigit)
    (hsp : ∀ c ∈ sp, isJsSpace c) (hmer : MeridiemChars a mc pm) :
    match12 (hd ++ ':' :: (md ++ (sp ++ [a, mc]))) =
      some (digitsVal hd, digitsVal md, pm) := by
  unfold match12
  rw [matchHM_complete hd md (sp ++ [a, mc]) hlen hdig hmdl hmdig]
  dsimp only
  rw [dropWhile_space_append sp a [mc] hsp (meridiem_not_space a mc pm hmer)]
  rcases hmer with ⟨rfl, ha, hmc⟩ | ⟨rfl, ha, hmc⟩ <;>
    rcases ha with rfl | rfl <;> rcases hmc with rfl | rfl <;> rfl

theorem match12_sound (cs : List Char) (h m : Nat) (pm : Bool)
    (hm : match12 cs = some (h, m, pm)) :
    ∃ hd md sp a mc, cs = hd ++ ':' :: (md ++ (sp ++ [a, mc])) ∧
      (hd.length = 1 ∨ hd.length = 2) ∧ (∀ c ∈ hd, c.isDigit) ∧
      md.length = 2 ∧ (∀ c ∈ md, c.isDigit) ∧ (∀ c ∈ sp, isJsSpace c) ∧
      MeridiemChars a mc pm ∧ h = digitsVal hd ∧ m = digitsVal md := by
  unfold match12 at hm
  rcases hmhm : matchHM cs with _ | ⟨⟨h', m', rest⟩⟩
  · rw [hmhm] at hm; simp at hm
  · rw [hmhm] at hm
    dsimp only at hm
    obtain ⟨hd, md, hcs, hl, hdg, hml, hmdg, hh', hmm'⟩ := matchHM_sound cs h' m' rest hmhm
    rcases hdw : rest.dropWhile isJsSpace with _ | ⟨a, _ | ⟨mc, _ | ⟨x, xs⟩⟩⟩ <;>
      rw [hdw] at hm
    · simp at hm
    · simp at hm
    · dsimp only at hm
      have hrest : rest = rest.takeWhile isJsSpace ++ [a, mc] := by
        conv_lhs => rw [← List.takeWhile_append_dropWhile (p := isJsSpace) (l := rest)]
        rw [hdw]
      have hsp : ∀ c ∈ rest.takeWhile isJsSpace, isJsSpace c :=
        fun c hc => List.mem_takeWhile_imp hc
      by_cases hAM : (a == 'A' || a == 'a') && (mc == 'M' || mc == 'm')
      · rw [if_pos hAM] at hm
        simp only [Option.some_inj, Prod.mk.injEq] at hm
        obtain ⟨hh, hmm, hpm⟩ := hm
        have hmer : MeridiemChars a mc pm := by
          simp only [Bool.and_eq_true, Bool.or_eq_true, beq_iff_eq] at hAM
          exact Or.inl ⟨hpm.symm, hAM.1, hAM.2⟩
        refine ⟨hd, md, rest.takeWhile isJsSpace, a, mc, ?_, hl, hdg, hml, hmdg,
          hsp, hmer, ?_, ?_⟩
        · rw [hrest] at hcs
          exact hcs
        · rw [← hh, hh']
        · rw [← hmm, hmm']
      · rw [if_neg hAM] at hm
        by_cases hPM : (a == 'P' || a == 'p') && (mc == 'M' || mc == 'm')
        · rw [if_pos hPM] at hm
          simp only [Option.some_inj, Prod.mk.injEq] at hm
          obtain ⟨hh, hmm, hpm⟩ := hm
          have hmer : MeridiemChars a mc pm := by
            simp only [Bool.and_eq_true, Bool.or_eq_true, beq_iff_eq] at hPM
            exact Or.inr ⟨hpm.symm, hPM.1, hPM.2⟩
          refine ⟨hd, md, rest.takeWhile isJsSpace, a, mc, ?_, hl, hdg, hml, hmdg,
            hsp, hmer, ?_, ?_⟩
          · rw [hrest] at hcs
            exact hcs
          · rw [← hh, hh']
          · rw [← hmm, hmm']
        · rw [if_neg hPM] at hm
          simp at hm
    · simp at hm

/-- **C5**: `parseTime` matches the reference definition of the spec:
it returns a result exactly on the spec's two input forms — the
12-hour form converted by the table (12 AM to hour 0, 12 PM to hour 12,
other PM hours plus 12) and the 24-hour form taken as written — and
yields the empty result on every other input (it is a total function,
so no input raises). -/
theorem C5_parseTime_matches_spec (s : String) (r : TimeHM) :
    parseTime s = some r ↔
      ((∃ h pm, Form12 s h r.minute pm ∧ r.hour = convert12 h pm) ∨
        Form24 s r.hour r.minute) := by
  constructor
  · intro hp
    unfold parseTime at hp
    rcases h12 : match12 s.data with _ | ⟨⟨h, m, pm⟩⟩
    · rw [h12] at hp
      dsimp only at hp
      rcases h24 : matchHM s.data with _ | ⟨⟨h, m, rest⟩⟩
      · rw [h24] at hp; simp at hp
      · rw [h24] at hp
        dsimp only at hp
        by_cases hrest : rest = []
        case neg => rw [if_neg hrest] at hp; simp at hp
        subst hrest
        rw [if_pos rfl] at hp
        simp only [Option.some_inj] at hp
        subst hp
        right
        obtain ⟨hd, md, hcs, hl, hdg, hml, hmdg, hh, hmm⟩ :=
          matchHM_sound s.data h m [] h24
        exact ⟨hd, md, by simpa using hcs, hl, hdg, hml, hmdg, hh, hmm⟩
    · rw [h12] at hp
      dsimp only at hp
      simp only [Option.some_inj] at hp
      subst hp
      left
      obtain ⟨hd, md, sp, a, mc, hcs, hl, hdg, hml, hmdg, hsp, hmer, hh, hmm⟩ :=
        match12_sound s.data h m pm h12
      exact ⟨h, pm, ⟨hd, md, sp, a, mc, hcs, hl, hdg, hml, hmdg, hsp, hmer, hh, hmm⟩,
        rfl⟩
  · rintro (⟨h, pm, ⟨hd, md, sp, a, mc, hcs, hl, hdg, hml, hmdg, hsp, hmer, hh, hmm⟩,
      hr⟩ | ⟨hd, md, hcs, hl, hdg, hml, hmdg, hh, hmm⟩)
    · unfold parseTime
      rw [hcs, match12_complete hd md sp a mc pm hl hdg hml hmdg hsp hmer]
      dsimp only
      have hre : r = ⟨r.hour, r.minute⟩ := rfl
      rw [hre, hr, hh, hmm]
      rfl
    · unfold parseTime
      have h24 : matchHM (hd ++ ':' :: md) =
          some (digitsVal hd, digitsVal md, []) := by
        have := matchHM_complete hd md [] hl hdg hml hmdg
        simpa using this
      have h12none : match12 (hd ++ ':' :: md) = none := by
        unfold match12
        rw [h24]
        rfl
      rw [hcs, h12none, h24]
      dsimp only
      rw [if_pos rfl]
      have hre : r = ⟨r.hour, r.minute⟩ := rfl
      rw [hre, hh, hmm]

/-- Witness for C5: the backward direction instantiated at
`"6:00 PM"`, whose 12-hour form converts to hour 18. -/
theorem C5_parseTime_matches_spec_witness :
    parseTime "6:00 PM" = some ⟨18, 0⟩ :=
  (C5_parseTime_matches_spec "6:00 PM" ⟨18, 0⟩).2
    (Or.inl ⟨6, true,
      ⟨['6'], ['0', '0'], [' '], 'P', 'M', by decide, by decide, by decide,
        by decide, by decide, by decide,
        Or.inr ⟨rfl, Or.inl rfl, Or.inl rfl⟩, by decide, by decide⟩,
      by decide⟩)

/-! ## Claim C10 -/

/-- **C10**: `parseTime` performs no range validation — any one- or
two-digit hour with any two-digit minute is returned verbatim
(`"99:99"` gives hour 99, minute 99; `"13:00 PM"` gives hour 25) — and
`buildICS` embeds such values directly into the rendered `DTSTART` and
`DTEND` strings. -/
theorem C10_no_range_validation :
    (∀ (d1 m1 m2 : Char), d1.isDigit → m1.isDigit → m2.isDigit →
      parseTime (String.mk [d1, ':', m1, m2]) =
        some ⟨digitVal d1, 10 * digitVal m1 + digitVal m2⟩) ∧
    (∀ (d1 d2 m1 m2 : Char), d1.isDigit → d2.isDigit → m1.isDigit → m2.isDigit →
      parseTime (String.mk [d1, d2, ':', m1, m2]) =
        some ⟨10 * digitVal d1 + digitVal d2, 10 * digitVal m1 + digitVal m2⟩) ∧
    parseTime "99:99" = some ⟨99, 99⟩ ∧
    parseTime "13:00 PM" = some ⟨25, 0⟩ ∧
    "DTSTART;TZID=Europe/Paris:20261011T999900" ∈
      veventLines "S"
        { id := "x", name := "X", eventType := "Core",
          wedding := Wedding.france, time := some "99:99", location := none,
          description := none, dayId := none, showOnWebsite := true,
          date := some "2026-10-11" } "2026-10-11" ∧
    "DTEND;TZID=Europe/Paris:20261011T1019900" ∈
      veventLines "S"
        { id := "x", name := "X", eventType := "Core",
          wedding := Wedding.france, time := some "99:99", location := none,
          description := none, dayId := none, showOnWebsite := true,
          date := some "2026-10-11" } "2026-10-11" := by
  refine ⟨?_, ?_, by decide, by decide, by decide, by decide⟩
  · intro d1 m1 m2 h1 h3 h4
    unfold parseTime
    have hhm : matchHM (String.mk [d1, ':', m1, m2]).data =
        some (digitVal d1, 10 * digitVal m1 + digitVal m2, []) :=
      matchHM_one d1 m1 m2 [] h1 h3 h4
    have h12 : match12 (String.mk [d1, ':', m1, m2]).data = none := by
      unfold match12
      rw [hhm]
      rfl
    rw [h12, hhm]
    dsimp only
    rw [if_pos rfl]
  · intro d1 d2 m1 m2 h1 h2 h3 h4
    unfold parseTime
    have hhm : matchHM (String.mk [d1, d2, ':', m1, m2]).data =
        some (10 * digitVal d1 + digitVal d2, 10 * digitVal m1 + digitVal m2, []) :=
      matchHM_two d1 d2 m1 m2 [] h1 h2 h3 h4
    have h12 : match12 (String.mk [d1, d2, ':', m1, m2]).data = none := by
      unfold match12
      rw [hhm]
      rfl
    rw [h12, hhm]
    dsimp only
    rw [if_pos rfl]

/-- Witness for C10: the two universally quantified clauses applied to
the digits of `"9:99"` and `"99:99"`. -/
theorem C10_no_range_validation_witness :
    parseTime (String.mk ['9', ':', '9', '9']) = some ⟨9, 99⟩ ∧
    parseTime (String.mk ['9', '9', ':', '9', '9']) = some ⟨99, 99⟩ :=
  ⟨C10_no_range_validation.1 '9' '9' '9' (by decide) (by decide) (by decide),
   C10_no_range_validation.2.1 '9' '9' '9' '9' (by decide) (by decide) (by decide)
     (by decide)⟩

end Sargaux
